import Mathlib

/-!
Verification of the phase-plane toolbox (`Toolbox/phaseplane.py`).

Shallow embedding of the routines `bisection`, `dx_scaled_2D`,
`find_fixedpoints` (grid cap and deduplication), `find_nullclines`
(cropping/filtering pipeline), `fixedpoint_2D._classify`, and the
retry/floor/flag logic of `find_saddle_manifolds`.

Numerical values are modelled as rationals (`ℚ`); comparisons against a
Euclidean norm `sqrt s < eps` are decided through the equivalent squared
comparison `0 < eps ∧ s < eps^2`, and bridging lemmas relate the decidable
form to the `Real.sqrt` form used in theorem statements.  External
collaborators of the toolbox (the trajectory integrator reached through
`gen.compute` inside `test_fn`, the `fsolve` nonlinear solver, the PyCont
continuation engine, and the `Interval.contains` domain test of the PyDSTool
core) are modelled as oracle parameters or, where the spec fixes their
meaning, from the spec's words.
-/

namespace PhasePlane

/-! ## Squared-distance helpers (2-norm over rational coordinates) -/

/-- Squared Euclidean distance of two points in the plane. -/
def dist2 (p q : ℚ × ℚ) : ℚ :=
  (p.1 - q.1)^2 + (p.2 - q.2)^2

/-- Decidable form of the comparison `norm(p - q, 2) < eps` made by the
source (`numpy.linalg.norm` followed by `<`): the norm is nonnegative, so
the comparison holds iff `eps` is positive and the squared distance is
below `eps^2`. -/
def normLt2 (p q : ℚ × ℚ) (eps : ℚ) : Bool :=
  decide (0 < eps ∧ dist2 p q < eps^2)

/-- The 2-norm distance of two rational points, as a real number. -/
noncomputable def norm2R (p q : ℚ × ℚ) : ℝ :=
  Real.sqrt ((dist2 p q : ℚ) : ℝ)

/-- Squared Euclidean distance of two coordinate vectors
(used by `find_fixedpoints`, which works on `D`-dimensional arrays). -/
def dist2V (p q : List ℚ) : ℚ :=
  ((p.zipWith (fun a b => a - b) q).map (fun d => d^2)).sum

/-- Decidable form of `norm(fp - xinf_val) < eps` in `find_fixedpoints`. -/
def normLtV (p q : List ℚ) (eps : ℚ) : Bool :=
  decide (0 < eps ∧ dist2V p q < eps^2)

/-- The 2-norm distance of two coordinate vectors, as a real number. -/
noncomputable def norm2VR (p q : List ℚ) : ℝ :=
  Real.sqrt ((dist2V p q : ℚ) : ℝ)

/-! ## `dx_scaled_2D` (phaseplane.py lines 645-681)

The anisotropic step helper.  `atan2` is `math.atan2`; its exact value is
irrelevant to claim C10 (the angle factor cancels when the scales are
equal), so it is embedded through `Complex.arg`. -/

/-- `math.atan2(y, x)`, embedded as the argument of the complex number
`x + i·y`. -/
noncomputable def atan2 (y x : ℝ) : ℝ := Complex.arg ⟨x, y⟩

/-- The state of a `dx_scaled_2D` instance after `__init__`:
the step `dx` and the two derived scale ratios. -/
structure DxScaled2D where
  dx : ℝ
  xScale : ℝ
  yScale : ℝ

/-- `dx_scaled_2D.__init__(dx, scale)`: asserts both scale components
positive (`none` on assertion failure) and stores
`x_scale = scale[0]/m`, `y_scale = scale[1]/scale[0]/m` with
`m = max(scale)`. -/
noncomputable def dxScaledMk (dx : ℝ) (scale : ℝ × ℝ) : Option DxScaled2D :=
  if 0 < scale.1 ∧ 0 < scale.2 then
    some ⟨dx, scale.1 / max scale.1 scale.2,
          scale.2 / scale.1 / max scale.1 scale.2⟩
  else none

/-- `dx_scaled_2D.__call__(dir)` on a 2-component direction (also bound to
`__mul__` in the source): `angle = 2*atan2(dir[1], dir[0])/pi`, and the
result is `dx*dir*(angle*y_scale + (1-angle))` componentwise. -/
noncomputable def dxScaledCall (s : DxScaled2D) (dir : ℝ × ℝ) : ℝ × ℝ :=
  let angle := 2 * atan2 dir.2 dir.1 / Real.pi
  (s.dx * dir.1 * (angle * s.yScale + (1 - angle)),
   s.dx * dir.2 * (angle * s.yScale + (1 - angle)))

/-! ## `fixedpoint_2D._classify` (phaseplane.py lines 1248-1268) -/

/-- A complex eigenvalue with rational components. -/
structure CC where
  re : ℚ
  im : ℚ
  deriving DecidableEq

/-- Complex subtraction, for `evals[0] - evals[1]`. -/
def csub (z w : CC) : CC := ⟨z.re - w.re, z.im - w.im⟩

/-- Squared complex modulus. -/
def cabs2 (z : CC) : ℚ := z.re^2 + z.im^2

/-- Decidable form of the comparison `abs(z) < e` on a complex value made
by the source: the modulus is nonnegative, so the comparison holds iff
`e` is positive and the squared modulus is below `e^2`. -/
def cabsLtB (z : CC) (e : ℚ) : Bool :=
  decide (0 < e ∧ cabs2 z < e^2)

/-- The complex modulus, as a real number. -/
noncomputable def cabsR (z : CC) : ℝ := Real.sqrt ((cabs2 z : ℚ) : ℝ)

/-- `numpy.sign` on a real value: `1`, `-1` or `0`. -/
def npSign (x : ℚ) : ℚ := if 0 < x then 1 else if x < 0 then -1 else 0

/-- Classification labels of `fixedpoint_2D`. -/
inductive FPClass where
  | node
  | saddle
  | spiral
  deriving DecidableEq

/-- Stability labels of `fixedpoint_2D` (`'s'`, `'c'`, `'u'`). -/
inductive FPStability where
  | s
  | c
  | u
  deriving DecidableEq

/-- `fixedpoint_2D._classify`: from the two eigenvalues and the tolerance
`eps`, compute (classification, stability, degenerate).
`isreal` is `imag == 0`; with both eigenvalues real, old-numpy `sign` of a
real-valued complex entry compares as the sign of its real part.
`real_parts` are the real parts of the eigenvalues. -/
def classify2D (ev0 ev1 : CC) (eps : ℚ) : FPClass × FPStability × Bool :=
  let classification :=
    if ev0.im = 0 ∧ ev1.im = 0 then
      if npSign ev0.re = npSign ev1.re then FPClass.node else FPClass.saddle
    else FPClass.spiral
  let stability :=
    if ev0.re < 0 ∧ ev1.re < 0 then FPStability.s
    else if ev0.re = 0 ∧ ev1.re = 0 then FPStability.c
    else FPStability.u
  let degenerate :=
    (cabsLtB ev0 eps || cabsLtB ev1 eps) || cabsLtB (csub ev0 ev1) eps
  (classification, stability, degenerate)

/-! ## `bisection` (phaseplane.py lines 615-642)

`func` may raise a `RuntimeError` (modelled by returning `none`); any value
it produces is `some`.  The outcome distinguishes a result (`ok`), the
failed `assert` of the sign-change precondition (`notBracketed`, an
`AssertionError` in the source), exhaustion of `maxiter` (`iterLimit`, a
`RuntimeError` in the source), and a fault of `func` at `a` or `b` that the
routine does not catch (`raised`). -/

inductive BisectOutcome where
  | ok (p : ℚ)
  | notBracketed
  | iterLimit
  | raised
  deriving DecidableEq

/-- The `while i <= maxiter` loop of `bisection`, with the remaining
iteration budget as fuel.  State: bracket `a`, `b` and the cached value
`eva = func(a)`.  Each pass halves the interval, returns the midpoint when
the half-width is inside `xtol`, returns the midpoint when `func` raises a
`RuntimeError` there or evaluates to zero there, and otherwise moves one
end of the bracket to the midpoint. -/
def bisectLoop (f : ℚ → Option ℚ) (xtol : ℚ) : ℕ → ℚ → ℚ → ℚ → BisectOutcome
  | 0, _, _, _ => .iterLimit
  | n+1, a, b, eva =>
    let dist := (b - a) / 2
    let p := a + dist
    if |dist| < xtol then .ok p
    else
      match f p with
      | none => .ok p
      | some ev =>
        if ev = 0 then .ok p
        else if ev * eva > 0 then bisectLoop f xtol n p b ev
        else bisectLoop f xtol n a p eva

/-- `bisection(func, a, b, xtol, maxiter)`: evaluate `func` at the ends,
assert the sign change, then run the loop.  `norm(dist, normord)` of the
scalar half-width is its absolute value. -/
def bisection (f : ℚ → Option ℚ) (a b : ℚ) (xtol : ℚ) (maxiter : ℕ) :
    BisectOutcome :=
  match f a, f b with
  | some eva, some evb =>
    if eva * evb < 0 then bisectLoop f xtol maxiter a b eva
    else .notBracketed
  | _, _ => .raised

/-! ## `find_fixedpoints` (phaseplane.py lines 425-533) -/

/-- The grid-resolution cap of `find_fixedpoints` (lines 455-463):
`while True: if n**D > maxsearch: n = n-1 else: break; if n < 3: raise`.
The decrement happens first; the under-3 test is applied only to the
decremented value, so a requested `n` below 3 that already satisfies
`n**D <= maxsearch` is kept.  `maxsearch` keeps the (here rational)
numeric type of the source's float argument. -/
def capResolution (D : ℕ) (maxsearch : ℚ) : ℕ → Except String ℕ
  | 0 =>
    if maxsearch < ((0^D : ℕ) : ℚ) then .error "maxsearch too small"
    else .ok 0
  | n+1 =>
    if maxsearch < (((n+1)^D : ℕ) : ℚ) then
      if n < 3 then .error "maxsearch too small"
      else capResolution D maxsearch n
    else .ok (n+1)

/-- One candidate produced by one `fsolve` run of the grid search:
the converged coordinate vector `xinf_val` (`val`), whether all its
components are finite (`finite`), whether the solver reported success
(`converged`, `res[2] == 1`), and whether every free coordinate passed the
domain-membership test (`inBounds`).  The latter three are outcomes of the
external solver and of the PyDSTool `Interval` test, so they enter the
embedding as data. -/
structure FPCand where
  val : List ℚ
  finite : Bool
  converged : Bool
  inBounds : Bool

/-- The accept/deduplicate loop of `find_fixedpoints` (lines 512-533):
a finite candidate is compared against every already-accepted fixed point;
if it is within `eps` (2-norm) of one, it is treated as the same fixed
point and discarded; otherwise it is accepted when the solver succeeded
and the bounds check passed.  `fps` is the accumulator of accepted
coordinate vectors (the parallel `fp_listdict` of the source echoes the
fixed coordinates back and is not needed for the distance claim). -/
def fpAcceptLoop (eps : ℚ) : List FPCand → List (List ℚ) → List (List ℚ)
  | [], fps => fps
  | c :: rest, fps =>
    if c.finite then
      if fps.isEmpty || !(fps.any fun fp => normLtV fp c.val eps) then
        if c.converged && c.inBounds then fpAcceptLoop eps rest (fps ++ [c.val])
        else fpAcceptLoop eps rest fps
      else fpAcceptLoop eps rest fps
    else fpAcceptLoop eps rest fps

/-- The collection of accepted fixed points returned by
`find_fixedpoints`, over the stream of solver candidates of the grid
search. -/
def findFixedpointsAccepted (eps : ℚ) (cands : List FPCand) : List (List ℚ) :=
  fpAcceptLoop eps cands []

/-! ## `find_nullclines` cropping and filtering
(phaseplane.py lines 213-223 and 313-315 / 396-398,
helpers at lines 2391-2424) -/

/-- Modelled from the spec: the `Interval.contains` test used by `crop_2D`
belongs to the PyDSTool core, which is not part of this repository; the
spec reads "every point in a returned NullclineCurve lies within the
domain rectangle expanded by exactly 2% on each side", so membership is
the closed-interval test on each coordinate. -/
def inRect (xlo xhi ylo yhi : ℚ) (p : ℚ × ℚ) : Bool :=
  decide (xlo ≤ p.1 ∧ p.1 ≤ xhi ∧ ylo ≤ p.2 ∧ p.2 ≤ yhi)

/-- `crop_2D(sol_array, xinterval, yinterval)` (lines 2420-2424): keep
exactly the points whose two coordinates lie in the respective
intervals. -/
def crop_2D (pts : List (ℚ × ℚ)) (xlo xhi ylo yhi : ℚ) : List (ℚ × ℚ) :=
  pts.filter (inRect xlo xhi ylo yhi)

/-- `filter_close_points(pts, eps)` (lines 2391-2406).  The source starts
from all indices and removes `j` from `remaining` whenever some `i < j`
has `norm(pts[i] - pts[j]) < eps`; the outer loop runs over all original
points whether or not they were themselves removed, so the kept points are
exactly those not within `eps` of any earlier original point.  `seen`
accumulates the already-scanned prefix of the original list. -/
def filterCloseAux (eps : ℚ) : List (ℚ × ℚ) → List (ℚ × ℚ) → List (ℚ × ℚ)
  | _, [] => []
  | seen, p :: rest =>
    if seen.any fun q => normLt2 q p eps then
      filterCloseAux eps (seen ++ [p]) rest
    else p :: filterCloseAux eps (seen ++ [p]) rest

/-- `filter_close_points` entry point. -/
def filter_close_points (pts : List (ℚ × ℚ)) (eps : ℚ) : List (ℚ × ℚ) :=
  filterCloseAux eps [] pts

/-- Lower end of a domain interval expanded by `tol = 0.02` of the axis
width (line 215: `x_dom[0] - tol*xwidth`, `xwidth = abs(x_dom[1]-x_dom[0])`). -/
def expandLo (lo hi : ℚ) : ℚ := lo - (2/100) * |hi - lo|

/-- Upper end of a domain interval expanded by `tol = 0.02` of the axis
width. -/
def expandHi (lo hi : ℚ) : ℚ := hi + (2/100) * |hi - lo|

/-- The `max_step = 0` output of `find_nullclines` (lines 221-223):
`filter_close_points(crop_2D(filter_NaN(pts), xint, yint), xtol*10)`.
`filter_NaN` only removes points with a non-finite coordinate; over `ℚ`
every value is finite, so the embedded candidate list is its own
NaN-filtered form. -/
def nullclineRaw (pts : List (ℚ × ℚ)) (x0 x1 y0 y1 xtol : ℚ) :
    List (ℚ × ℚ) :=
  filter_close_points
    (crop_2D pts (expandLo x0 x1) (expandHi x0 x1)
      (expandLo y0 y1) (expandHi y0 y1))
    (xtol * 10)

/-- The `max_step ≠ 0` output of `find_nullclines` (lines 313-315 for the
y-nullcline, 396-398 for the x-nullcline): the PyCont solution curve
`sol`, an input here because the continuation engine is external, replaces
the raw grid points and is only cropped — no closeness filter is applied
to it. -/
def nullclineRefined (sol : List (ℚ × ℚ)) (x0 x1 y0 y1 : ℚ) :
    List (ℚ × ℚ) :=
  crop_2D sol (expandLo x0 x1) (expandHi x0 x1)
    (expandLo y0 y1) (expandHi y0 y1)

/-! ## `find_saddle_manifolds` (phaseplane.py lines 684-1006)

The claims about this routine concern its correction-retry and
flag-management logic.  The geometric content of one correction attempt —
predicting the trial point `x_ic` from `gen.Rhs` (with the sign-flip
safeguard), then `onto_manifold`, which bisects the trajectory-integration
test function `test_fn` between `x_ic ± dx_perp·n` — goes through the
external trajectory integrator (`gen.compute`), so an attempt enters the
embedding as an oracle from the current base point and perturbation
`dx_perp` to either a corrected point or `none` (a raised `RuntimeError`:
invalid bisection bracket, bisection iteration limit, or integration
failure — `onto_manifold` re-raises all of these as `RuntimeError`).
Likewise the arclength increment `norm(x - last_x, normord)` and the
`other_pts` proximity check are oracle parameters. -/

/-- A point of the phase plane. -/
abbrev Pt := ℚ × ℚ

/-- The hard floor `dx_perp_eps = 1e-12` (line 748). -/
def dxPerpEps : ℚ := 1 / 10^12

/-- Outcome of one correction retry loop.  `fuelOut` is an artifact of the
fuel-indexed embedding; the Python loop iterates until the shrinking
`dx_perp` passes the floor or an attempt succeeds. -/
inductive RetryResult where
  | success (x : Pt)
  | floorReached
  | fuelOut
  deriving DecidableEq

/-- The correction retry loop appearing at both correction sites (lines
926-934 for a direction's initial point, 973-981 for subsequent points):
`while dx_perp > dx_perp_eps: try: x = onto_manifold(...); except
RuntimeError: dx_perp *= fac; else: break`, followed by the
`dx_perp <= dx_perp_eps` floor test.  `attempt dxp` is the outcome of
`onto_manifold` at perturbation `dxp` (`none` when it raises
`RuntimeError`). -/
def retryLoop (attempt : ℚ → Option Pt) (fac : ℚ) : ℕ → ℚ → RetryResult
  | 0, _ => .fuelOut
  | k+1, dxp =>
    if dxPerpEps < dxp then
      match attempt dxp with
      | some x => .success x
      | none => retryLoop attempt fac k (dxp * fac)
    else .floorReached

/-- Configuration and oracles of one direction's growth:
`att lastX dxp` is the correction attempt at the point predicted from
`lastX` with perturbation `dxp`; `dist` is `norm(· - ·, normord)`;
`nearOther` is the `other_pts` proximity check; `sgn` the direction sign;
`dxPerpDefault` the configured `dx_perp` restored before every step;
`maxLen`/`maxPts` the growth limits; `retryFuel` the fuel given to the
retry loops. -/
structure GrowCfg where
  att : Pt → ℚ → Option Pt
  dist : Pt → Pt → ℚ
  nearOther : Pt → Bool
  sgn : ℚ
  dxPerpDefault : ℚ
  maxLen : ℚ
  maxPts : ℕ
  retryFuel : ℕ

/-- The `while curve_len < max_len and num_pts < max_pts` growth loop of
one direction (lines 956-1000).  Per iteration: the `other_pts` proximity
check breaks out of the loop; otherwise `dx_perp` is reset to its default
and the correction retry runs — the source shrinks `dx_perp` here by the
literal `0.75` (line 978: `dx_perp *= 0.75`), not by the configured
`dx_perp_fac` — and on success the corrected point is appended to the
piece at the signed accumulated arclength, while reaching the floor
breaks the loop, keeping the piece built so far. -/
def growLoop (cfg : GrowCfg) :
    ℕ → ℚ → ℕ → Pt → List (ℚ × Pt) → List (ℚ × Pt)
  | 0, _, _, _, piece => piece
  | fuel+1, curveLen, numPts, lastX, piece =>
    if curveLen < cfg.maxLen ∧ numPts < cfg.maxPts then
      if cfg.nearOther lastX then piece
      else
        match retryLoop (cfg.att lastX) (3/4) cfg.retryFuel
            cfg.dxPerpDefault with
        | .success x =>
          growLoop cfg fuel (curveLen + cfg.dist x lastX) (numPts + 1) x
            (piece ++ [(cfg.sgn * (curveLen + cfg.dist x lastX), x)])
        | .floorReached => piece
        | .fuelOut => piece
    else piece

/-- Modelled from the spec: the spec's words "shrink `dx_perp` by the
configured factor and retry" applied to the subsequent-point correction —
identical to `growLoop` except that the retry shrinks by the configured
factor `fac` instead of the source's literal `0.75`.  Used only to
exhibit the divergence between the source and claim C2. -/
def growLoopSpecFactor (fac : ℚ) (cfg : GrowCfg) :
    ℕ → ℚ → ℕ → Pt → List (ℚ × Pt) → List (ℚ × Pt)
  | 0, _, _, _, piece => piece
  | fuel+1, curveLen, numPts, lastX, piece =>
    if curveLen < cfg.maxLen ∧ numPts < cfg.maxPts then
      if cfg.nearOther lastX then piece
      else
        match retryLoop (cfg.att lastX) fac cfg.retryFuel
            cfg.dxPerpDefault with
        | .success x =>
          growLoopSpecFactor fac cfg fuel (curveLen + cfg.dist x lastX)
            (numPts + 1) x
            (piece ++ [(cfg.sgn * (curveLen + cfg.dist x lastX), x)])
        | .floorReached => piece
        | .fuelOut => piece
    else piece

/-- One direction of one branch (lines 917-1000): the initial correction
retry shrinks by the configured `dx_perp_fac` (line 931); reaching the
floor there raises `RuntimeError("Initial point did not converge")`
(line 944), failing the whole trace, while success seeds the piece with
the corrected point at arclength `curve_len + norm(x - ic)` and hands over
to the growth loop. -/
def traceDirection (cfg : GrowCfg) (attInit : ℚ → Option Pt)
    (dxPerpFac dxPerp0 : ℚ) (ic : Pt) (curveLen0 : ℚ) :
    Except String (List (ℚ × Pt)) :=
  match retryLoop attInit dxPerpFac cfg.retryFuel dxPerp0 with
  | .floorReached => .error "Initial point did not converge"
  | .fuelOut => .error "retry fuel exhausted"
  | .success x =>
    let len := curveLen0 + cfg.dist x ic
    .ok (growLoop cfg cfg.maxPts len 1 x [(cfg.sgn * len, x)])

/-- The two exit-surface activation flags of the shared vector-field
handle (`gen.eventstruct['Gamma_out_plus'].activeFlag` and the `minus`
counterpart). -/
structure GenState where
  gammaOutPlusActive : Bool
  gammaOutMinusActive : Bool
  deriving DecidableEq

/-- The iteration over the requested branches and directions; each branch
computation runs against the shared handle state, and an exception from a
branch propagates immediately. -/
def runBranches (st : GenState) :
    List (GenState → Except String (List (ℚ × Pt))) →
    Except String (List (List (ℚ × Pt)))
  | [] => .ok []
  | br :: rest =>
    match br st with
    | .error e => .error e
    | .ok piece =>
      match runBranches st rest with
      | .error e => .error e
      | .ok ms => .ok (piece :: ms)

/-- The flag-management skeleton of `find_saddle_manifolds`: both
activation flags are set `True` before any branch is grown (lines
824-825), every branch computation runs against that flags-active state,
and on the normal-return path both flags are set back to `False` (lines
1003-1004) before the manifold mapping is returned. -/
def findSaddleManifolds (st : GenState)
    (branches : List (GenState → Except String (List (ℚ × Pt)))) :
    Except String (GenState × List (List (ℚ × Pt))) :=
  match runBranches ⟨true, true⟩ branches with
  | .error e => .error e
  | .ok ms => .ok (⟨false, false⟩, ms)

/-- An attempt oracle that succeeds exactly when the perturbation has
dropped to `1/2` or below, reporting the perturbation it succeeded at.
Used to exhibit the retry factor used by the source. -/
def attContrived : ℚ → Option Pt :=
  fun dxp => if dxp ≤ 1/2 then some (dxp, 0) else none

/-- Concrete growth configuration for the C2 counterexample and witness:
the attempt ignores the base point and uses `attContrived`; the distance
oracle is constant `1`. -/
def cfgContrived : GrowCfg :=
  ⟨fun _ dxp => attContrived dxp, fun _ _ => 1, fun _ => false,
   1, 1, 100, 100, 10⟩

/-- Concrete growth configuration whose default perturbation already sits
below the floor, so every subsequent-point correction reports
`floorReached`. -/
def cfgFloor : GrowCfg :=
  ⟨fun _ _ => none, fun _ _ => 1, fun _ => false,
   1, 1/10^13, 100, 100, 10⟩

end PhasePlane

namespace PhasePlane

/-- The loop of `bisection` can only yield a point or the iteration-limit
failure: a `RuntimeError` raised by `func` at a midpoint is caught and
never propagated. -/
theorem bisectLoop_ne_raised (f : ℚ → Option ℚ) (xtol : ℚ) :
    ∀ (n : ℕ) (a b eva : ℚ), bisectLoop f xtol n a b eva ≠ .raised := by
  intro n
  induction n with
  | zero => intro a b eva; simp [bisectLoop]
  | succ n ih =>
    intro a b eva
    simp only [bisectLoop]
    split
    · simp
    · match h : f (a + (b - a) / 2) with
      | none => simp
      | some ev =>
        simp only
        split
        · simp
        · split
          · exact ih _ _ _
          · exact ih _ _ _

/-- Claim C5: when the sign-change precondition fails (`f(a)·f(b) ≥ 0`),
`bisection` fails with the not-bracketed error at entry, for every
iteration budget and for every function agreeing with `f` at the two end
points — in particular it performs no bisection iteration and never
evaluates the function at a midpoint. -/
theorem bisection_notBracketed (f : ℚ → Option ℚ) (a b va vb : ℚ)
    (hfa : f a = some va) (hfb : f b = some vb) (h : va * vb ≥ 0) :
    ∀ (g : ℚ → Option ℚ) (m : ℕ), g a = some va → g b = some vb →
      bisection g a b (1/10^10) m = .notBracketed ∧
      ∀ xtol : ℚ, bisection g a b xtol m = .notBracketed := by
  intro g m hga hgb
  have key : ∀ xtol : ℚ, bisection g a b xtol m = .notBracketed := by
    intro xtol
    unfold bisection
    rw [hga, hgb]
    simp only
    rw [if_neg (not_lt.mpr h)]
  exact ⟨key _, key⟩

/-- Witness for C5 at `f = const 1`, `a = 0`, `b = 1`. -/
theorem bisection_notBracketed_witness :
    bisection (fun _ => some 1) 0 1 (1/10^10) 7 = .notBracketed := by
  have h := bisection_notBracketed (fun _ => some 1) 0 1 1 1 rfl rfl
    (by norm_num) (fun _ => some 1) 7 rfl rfl
  exact h.1

/-- Claim C6: with a valid bracket (`f(a)·f(b) < 0`), `bisection` never
propagates a recoverable fault of `f`; and whenever the evaluation of `f`
at the current midpoint of the loop raises such a fault, the routine
returns that midpoint as its result. -/
theorem bisection_fault_returns_midpoint (f : ℚ → Option ℚ)
    (a b va vb xtol : ℚ) (m : ℕ)
    (hfa : f a = some va) (hfb : f b = some vb) (hbr : va * vb < 0) :
    bisection f a b xtol m ≠ .raised ∧
    ∀ (k : ℕ) (a' b' ev : ℚ), ¬ (|(b' - a') / 2| < xtol) →
      f (a' + (b' - a') / 2) = none →
      bisectLoop f xtol (k+1) a' b' ev = .ok (a' + (b' - a') / 2) := by
  constructor
  · unfold bisection
    rw [hfa, hfb]
    simp only
    rw [if_pos hbr]
    exact bisectLoop_ne_raised f xtol m a b va
  · intro k a' b' ev htol hraise
    simp only [bisectLoop]
    rw [if_neg htol, hraise]

/-- Witness for C6: `f` raises exactly at `0`; on bracket `[-1, 1]` with
`xtol = 1/2` the first midpoint is `0`, and the loop returns it. -/
theorem bisection_fault_returns_midpoint_witness :
    bisection (fun x => if x = 0 then none else some x) (-1) 1 (1/2) 3 ≠ .raised ∧
    bisectLoop (fun x => if x = 0 then none else some x) (1/2) 1 (-1) 1 (-1) =
      .ok 0 := by
  have h := bisection_fault_returns_midpoint
    (fun x => if x = 0 then none else some x) (-1) 1 (-1) 1 (1/2) 3
    (by norm_num) (by norm_num) (by norm_num)
  refine ⟨h.1, ?_⟩
  have h2 := h.2 0 (-1) 1 (-1) (by norm_num) (by norm_num)
  norm_num at h2 ⊢
  exact h2

/-- Claim C8: for the identity function on the bracket `[-1, 1]` and any
tolerance `xtol ∈ (0, 1)`, `bisection` returns exactly `0` using a single
iteration — hence within any budget of at least one iteration, and in
particular within `⌈log₂(2/xtol)⌉ ≥ 1` iterations. -/
theorem bisection_identity_converges (xtol : ℚ)
    (h0 : 0 < xtol) (h1 : xtol < 1) :
    (∀ m : ℕ, 1 ≤ m → bisection (fun x => some x) (-1) 1 xtol m = .ok 0) ∧
    (1 : ℤ) ≤ ⌈Real.logb 2 (2 / (xtol : ℝ))⌉ := by
  constructor
  · intro m hm
    obtain ⟨k, rfl⟩ := Nat.exists_eq_add_of_le hm
    unfold bisection
    simp only
    rw [if_pos (by norm_num)]
    have : (1 : ℕ) + k = k + 1 := by omega
    rw [this]
    simp only [bisectLoop]
    have hd : ((1 : ℚ) - (-1)) / 2 = 1 := by norm_num
    rw [hd]
    rw [if_neg (by rw [abs_one]; exact not_lt.mpr (le_of_lt h1))]
    norm_num
  · have hx : (0 : ℝ) < (xtol : ℝ) := by exact_mod_cast h0
    have hx1 : (xtol : ℝ) < 1 := by exact_mod_cast h1
    have hgt : (1 : ℝ) < 2 / (xtol : ℝ) := by
      rw [lt_div_iff hx]
      nlinarith
    have hpos : (0 : ℝ) < Real.logb 2 (2 / (xtol : ℝ)) :=
      Real.logb_pos (by norm_num) hgt
    have : (0 : ℤ) < ⌈Real.logb 2 (2 / (xtol : ℝ))⌉ := by
      rw [Int.lt_ceil]
      exact_mod_cast hpos
    omega

/-- Witness for C8 at `xtol = 1/2`, budget `5`. -/
theorem bisection_identity_converges_witness :
    bisection (fun x => some x) (-1) 1 (1/2) 5 = .ok 0 ∧
    (1 : ℤ) ≤ ⌈Real.logb 2 (2 / ((1/2 : ℚ) : ℝ))⌉ := by
  have h := bisection_identity_converges (1/2) (by norm_num) (by norm_num)
  exact ⟨h.1 5 (by norm_num), h.2⟩

/-- The decidable squared comparison used in the embedding agrees with the
source's comparison `abs(z) < e` of a complex modulus against a
tolerance. -/
theorem cabsLtB_iff (z : CC) (e : ℚ) : cabsLtB z e = true ↔ cabsR z < (e : ℝ) := by
  have habs : (0 : ℝ) ≤ ((cabs2 z : ℚ) : ℝ) := by
    have : (0 : ℚ) ≤ cabs2 z := by unfold cabs2; positivity
    exact_mod_cast this
  rw [cabsLtB, decide_eq_true_iff]
  constructor
  · rintro ⟨he, hlt⟩
    have he' : (0 : ℝ) < (e : ℝ) := by exact_mod_cast he
    rw [cabsR, Real.sqrt_lt' he']
    exact_mod_cast hlt
  · intro h
    have he' : (0 : ℝ) < (e : ℝ) := lt_of_le_of_lt (Real.sqrt_nonneg _) h
    have he : (0 : ℚ) < e := by exact_mod_cast he'
    refine ⟨he, ?_⟩
    rw [cabsR, Real.sqrt_lt' he'] at h
    exact_mod_cast h

/-- Claim C1: the classification of `fixedpoint_2D` is exactly
eigen-determined.  Classification: `node` iff both eigenvalues are real
with equal `numpy` sign, `saddle` iff both are real with unequal sign (in
particular whenever the signs are opposite), `spiral` iff not both are
real.  Stability: `s` iff both real parts are negative, `c` iff both are
exactly zero, `u` otherwise.  Degenerate: set iff some eigenvalue's
modulus is below `eps` or the modulus of the difference of the two
eigenvalues is below `eps`. -/
theorem fixedpoint_2D_classify (ev0 ev1 : CC) (eps : ℚ) :
    ((classify2D ev0 ev1 eps).1 = FPClass.node ↔
       (ev0.im = 0 ∧ ev1.im = 0) ∧ npSign ev0.re = npSign ev1.re) ∧
    ((classify2D ev0 ev1 eps).1 = FPClass.saddle ↔
       (ev0.im = 0 ∧ ev1.im = 0) ∧ npSign ev0.re ≠ npSign ev1.re) ∧
    ((classify2D ev0 ev1 eps).1 = FPClass.spiral ↔
       ¬(ev0.im = 0 ∧ ev1.im = 0)) ∧
    ((classify2D ev0 ev1 eps).2.1 = FPStability.s ↔
       ev0.re < 0 ∧ ev1.re < 0) ∧
    ((classify2D ev0 ev1 eps).2.1 = FPStability.c ↔
       ev0.re = 0 ∧ ev1.re = 0) ∧
    ((classify2D ev0 ev1 eps).2.1 = FPStability.u ↔
       ¬(ev0.re < 0 ∧ ev1.re < 0) ∧ ¬(ev0.re = 0 ∧ ev1.re = 0)) ∧
    ((classify2D ev0 ev1 eps).2.2 = true ↔
       cabsR ev0 < eps ∨ cabsR ev1 < eps ∨ cabsR (csub ev0 ev1) < eps) := by
  have hcls : (classify2D ev0 ev1 eps).1 =
      (if ev0.im = 0 ∧ ev1.im = 0 then
        (if npSign ev0.re = npSign ev1.re then FPClass.node else FPClass.saddle)
      else FPClass.spiral) := rfl
  have hstab : (classify2D ev0 ev1 eps).2.1 =
      (if ev0.re < 0 ∧ ev1.re < 0 then FPStability.s
      else if ev0.re = 0 ∧ ev1.re = 0 then FPStability.c
      else FPStability.u) := rfl
  have hdeg : (classify2D ev0 ev1 eps).2.2 =
      ((cabsLtB ev0 eps || cabsLtB ev1 eps) || cabsLtB (csub ev0 ev1) eps) := rfl
  refine ⟨?_, ?_, ?_, ?_, ?_, ?_, ?_⟩
  · rw [hcls]; split_ifs with h1 h2 <;> simp_all
  · rw [hcls]; split_ifs with h1 h2 <;> simp_all
  · rw [hcls]; split_ifs with h1 h2 <;> simp_all
  · rw [hstab]; split_ifs with hA hB <;> simp_all
  · rw [hstab]; split_ifs with hA hB
    · constructor
      · intro h; exact absurd h (by simp)
      · rintro ⟨h0, h1⟩
        exact absurd hA.1 (by rw [h0]; exact lt_irrefl 0)
    · simp_all
    · simp_all
  · rw [hstab]; split_ifs with hA hB <;> simp_all
  · rw [hdeg]
    simp only [Bool.or_eq_true, cabsLtB_iff]
    tauto

/-- When the decidable squared comparison fails, the 2-norm distance of
the two coordinate vectors is at least `eps`. -/
theorem normLtV_false_le (p q : List ℚ) (eps : ℚ)
    (h : normLtV p q eps = false) : (eps : ℝ) ≤ norm2VR p q := by
  have hnn : (0 : ℚ) ≤ dist2V p q := by
    unfold dist2V
    apply List.sum_nonneg
    intro x hx
    obtain ⟨d, _, rfl⟩ := List.mem_map.mp hx
    positivity
  have hnnR : (0 : ℝ) ≤ ((dist2V p q : ℚ) : ℝ) := by exact_mod_cast hnn
  rw [normLtV, decide_eq_false_iff_not, not_and_or, not_lt, not_lt] at h
  rcases h with h | h
  · calc (eps : ℝ) ≤ 0 := by exact_mod_cast h
      _ ≤ norm2VR p q := Real.sqrt_nonneg _
  · rcases le_or_lt eps 0 with he | he
    · calc (eps : ℝ) ≤ 0 := by exact_mod_cast he
        _ ≤ norm2VR p q := Real.sqrt_nonneg _
    · have heR : (0 : ℝ) ≤ (eps : ℝ) := by positivity
      have : ((eps : ℝ))^2 ≤ ((dist2V p q : ℚ) : ℝ) := by exact_mod_cast h
      calc (eps : ℝ) = Real.sqrt ((eps : ℝ)^2) := (Real.sqrt_sq heR).symm
        _ ≤ norm2VR p q := Real.sqrt_le_sqrt this

/-- The dedup loop preserves the invariant that all accepted fixed points
are pairwise not-within-`eps` of each other: a new candidate is appended
only after the `sometrue` test found no accepted point within `eps`. -/
theorem fpAcceptLoop_pairwise (eps : ℚ) :
    ∀ (cands : List FPCand) (fps : List (List ℚ)),
      fps.Pairwise (fun p q => normLtV p q eps = false) →
      (fpAcceptLoop eps cands fps).Pairwise
        (fun p q => normLtV p q eps = false) := by
  intro cands
  induction cands with
  | nil => intro fps h; exact h
  | cons c rest ih =>
    intro fps h
    simp only [fpAcceptLoop]
    split_ifs with h1 h2 h3
    · have hfar : ∀ fp ∈ fps, normLtV fp c.val eps = false := by
        intro fp hfp
        cases hv : normLtV fp c.val eps with
        | false => rfl
        | true =>
          exfalso
          have hany : (fps.any fun fp => normLtV fp c.val eps) = true :=
            List.any_eq_true.mpr ⟨fp, hfp, hv⟩
          have hne : fps.isEmpty = false := by
            cases fps with
            | nil => simp at hfp
            | cons a l => rfl
          rw [hany, hne] at h2
          simp at h2
      refine ih _ (List.pairwise_append.mpr ⟨h, ?_, ?_⟩)
      · simp
      · intro a ha b hb
        rw [List.mem_singleton] at hb
        subst hb
        exact hfar a ha
    · exact ih fps h
    · exact ih fps h
    · exact ih fps h

/-- Claim C3: any two distinct fixed points returned by
`find_fixedpoints` are at least `eps` apart in the 2-norm; and a finite
converged root that lies within `eps` of an already-accepted fixed point
is discarded outright (the loop state is unchanged), so only the
first-found representative is kept. -/
theorem find_fixedpoints_dedup (eps : ℚ) (cands : List FPCand) :
    (findFixedpointsAccepted eps cands).Pairwise
      (fun p q => (eps : ℝ) ≤ norm2VR p q) ∧
    ∀ (c : FPCand) (rest : List FPCand) (fps : List (List ℚ)),
      c.finite = true → (∃ fp ∈ fps, normLtV fp c.val eps = true) →
      fpAcceptLoop eps (c :: rest) fps = fpAcceptLoop eps rest fps := by
  constructor
  · have h := fpAcceptLoop_pairwise eps cands [] List.Pairwise.nil
    exact h.imp (fun h' => normLtV_false_le _ _ _ h')
  · rintro c rest fps hfin ⟨fp, hmem, hlt⟩
    have hany : (fps.any fun fp => normLtV fp c.val eps) = true :=
      List.any_eq_true.mpr ⟨fp, hmem, hlt⟩
    have hne : fps.isEmpty = false := by
      cases fps with
      | nil => simp at hmem
      | cons a l => rfl
    simp [fpAcceptLoop, hfin, hany, hne]

/-- Witness for C3: two candidates at squared distance `8` with `eps = 1`
are both kept (`√8 ≥ 1`), and a candidate within `eps` of an accepted
point leaves the loop state unchanged. -/
theorem find_fixedpoints_dedup_witness :
    (findFixedpointsAccepted 1
        [⟨[0, 0], true, true, true⟩, ⟨[2, 2], true, true, true⟩]).Pairwise
      (fun p q => ((1 : ℚ) : ℝ) ≤ norm2VR p q) ∧
    fpAcceptLoop 1 [⟨[0, 1/2], true, true, true⟩] [[0, 0]] =
      fpAcceptLoop 1 [] [[0, 0]] := by
  constructor
  · exact (find_fixedpoints_dedup 1
      [⟨[0, 0], true, true, true⟩, ⟨[2, 2], true, true, true⟩]).1
  · exact (find_fixedpoints_dedup 1 []).2 ⟨[0, 1/2], true, true, true⟩ []
      [[0, 0]] rfl ⟨[0, 0], by simp, by norm_num [normLtV, dist2V]⟩

/-- Counterexample to claim C7 as stated: with requested resolution
`n = 2`, `D = 2` free dimensions and `maxsearch = 5`, we have
`3^D = 9 > 5`, yet the call does not fail: the search proceeds at the
requested resolution `2` (`2^2 = 4 ≤ 5` seeds). -/
theorem capResolution_claim_counterexample :
    capResolution 2 5 2 = .ok 2 ∧ (5 : ℚ) < ((3^2 : ℕ) : ℚ) := by
  constructor
  · simp only [capResolution]
    rw [if_neg (by norm_num)]
  · norm_num

/-- Claim C7 amended: if `n^D ≤ maxsearch` the requested resolution is
used unchanged (even when `n < 3`); if `n ≥ 3` and `3^D ≤ maxsearch`, the
search uses the largest `m ≤ n` with `m^D ≤ maxsearch` (so the seed count
never exceeds `maxsearch`); the call fails exactly when a reduction is
needed and it would pass below 3 — for `n ≥ 3` this means
`3^D > maxsearch`, and it also fails for `n < 3` with
`n^D > maxsearch`. -/
theorem capResolution_spec (D n : ℕ) (maxsearch : ℚ) :
    (((n^D : ℕ) : ℚ) ≤ maxsearch → capResolution D maxsearch n = .ok n) ∧
    (3 ≤ n → ((3^D : ℕ) : ℚ) ≤ maxsearch →
      ∃ m, capResolution D maxsearch n = .ok m ∧ 3 ≤ m ∧ m ≤ n ∧
        ((m^D : ℕ) : ℚ) ≤ maxsearch ∧
        ∀ k, m < k → k ≤ n → maxsearch < ((k^D : ℕ) : ℚ)) ∧
    (maxsearch < ((n^D : ℕ) : ℚ) →
      (maxsearch < ((3^D : ℕ) : ℚ) ∨ n < 3) →
      capResolution D maxsearch n = .error "maxsearch too small") := by
  refine ⟨?_, ?_, ?_⟩
  · intro h
    cases n with
    | zero =>
      simp only [capResolution]
      rw [if_neg (not_lt.mpr h)]
    | succ k =>
      simp only [capResolution]
      rw [if_neg (not_lt.mpr h)]
  · induction n with
    | zero => intro h3; omega
    | succ k ih =>
      intro h3 hle
      by_cases hcap : maxsearch < (((k+1)^D : ℕ) : ℚ)
      · have hpow : (3:ℕ)^D < (k+1)^D := by
          have : ((3^D : ℕ) : ℚ) < (((k+1)^D : ℕ) : ℚ) := lt_of_le_of_lt hle hcap
          exact_mod_cast this
        have hk3 : 3 < k + 1 := by
          by_contra hcon
          push_neg at hcon
          exact absurd (Nat.pow_le_pow_left hcon D) (not_le.mpr hpow)
        have hk : 3 ≤ k := by omega
        obtain ⟨m, hm, hm3, hmk, hmle, hmax⟩ := ih hk hle
        refine ⟨m, ?_, hm3, by omega, hmle, ?_⟩
        · rw [capResolution, if_pos hcap, if_neg (by omega)]
          exact hm
        · intro j hmj hjk
          rcases Nat.lt_or_ge j (k+1) with hj | hj
          · exact hmax j hmj (by omega)
          · have : j = k + 1 := by omega
            subst this
            exact hcap
      · refine ⟨k+1, ?_, h3, le_refl _, not_lt.mp hcap, ?_⟩
        · rw [capResolution, if_neg hcap]
        · intro j hj hj'
          omega
  · induction n with
    | zero =>
      intro hgt _
      simp only [capResolution]
      rw [if_pos hgt]
    | succ k ih =>
      intro hgt hcase
      rw [capResolution, if_pos hgt]
      by_cases hk : k < 3
      · rw [if_pos hk]
      · rw [if_neg hk]
        push_neg at hk
        have h3 : maxsearch < ((3^D : ℕ) : ℚ) := by
          rcases hcase with h | h
          · exact h
          · omega
        apply ih
        · calc maxsearch < ((3^D : ℕ) : ℚ) := h3
            _ ≤ ((k^D : ℕ) : ℚ) := by
              exact_mod_cast Nat.pow_le_pow_left hk D
        · exact Or.inl h3

/-- Witness for C7's amended theorem: `D = 2`, `maxsearch = 10` keeps
`n = 3` (9 ≤ 10), reduces `n = 4` to the largest admissible resolution,
and `D = 7`, `maxsearch = 1000`, `n = 5` fails (`3^7 = 2187 > 1000`). -/
theorem capResolution_spec_witness :
    capResolution 2 10 3 = .ok 3 ∧
    (∃ m, capResolution 2 10 4 = .ok m ∧ 3 ≤ m ∧ m ≤ 4 ∧
      ((m^2 : ℕ) : ℚ) ≤ 10 ∧
      ∀ k, m < k → k ≤ 4 → (10 : ℚ) < ((k^2 : ℕ) : ℚ)) ∧
    capResolution 7 1000 5 = .error "maxsearch too small" := by
  refine ⟨(capResolution_spec 2 3 10).1 (by norm_num),
    (capResolution_spec 2 4 10).2.1 (by norm_num) (by norm_num),
    (capResolution_spec 7 5 1000).2.2 (by norm_num) (Or.inl (by norm_num))⟩

/-- When the decidable squared comparison fails, the 2-norm distance of
the two planar points is at least `eps`. -/
theorem normLt2_false_le (p q : ℚ × ℚ) (eps : ℚ)
    (h : normLt2 p q eps = false) : (eps : ℝ) ≤ norm2R p q := by
  have hnn : (0 : ℚ) ≤ dist2 p q := by unfold dist2; positivity
  rw [normLt2, decide_eq_false_iff_not, not_and_or, not_lt, not_lt] at h
  rcases h with h | h
  · calc (eps : ℝ) ≤ 0 := by exact_mod_cast h
      _ ≤ norm2R p q := Real.sqrt_nonneg _
  · rcases le_or_lt eps 0 with he | he
    · calc (eps : ℝ) ≤ 0 := by exact_mod_cast he
        _ ≤ norm2R p q := Real.sqrt_nonneg _
    · have heR : (0 : ℝ) ≤ (eps : ℝ) := by positivity
      have hsq : ((eps : ℝ))^2 ≤ ((dist2 p q : ℚ) : ℝ) := by exact_mod_cast h
      calc (eps : ℝ) = Real.sqrt ((eps : ℝ)^2) := (Real.sqrt_sq heR).symm
        _ ≤ norm2R p q := Real.sqrt_le_sqrt hsq

/-- Every point kept by the closeness filter is not within `eps` of any
point of the already-scanned prefix. -/
theorem filterCloseAux_far (eps : ℚ) :
    ∀ (l seen : List (ℚ × ℚ)), ∀ q ∈ filterCloseAux eps seen l,
      ∀ x ∈ seen, normLt2 x q eps = false := by
  intro l
  induction l with
  | nil => intro seen q hq; simp [filterCloseAux] at hq
  | cons p rest ih =>
    intro seen q hq x hx
    rw [filterCloseAux] at hq
    split_ifs at hq with hAny
    · exact ih (seen ++ [p]) q hq x (List.mem_append_left _ hx)
    · rcases List.mem_cons.mp hq with rfl | hq'
      · cases hv : normLt2 x q eps with
        | false => rfl
        | true =>
          exact absurd (List.any_eq_true.mpr ⟨x, hx, hv⟩) hAny
      · exact ih (seen ++ [p]) q hq' x (List.mem_append_left _ hx)

/-- The points kept by the closeness filter are pairwise not within `eps`
of each other: a kept point is compared against the whole earlier prefix,
which contains every earlier kept point. -/
theorem filterCloseAux_pairwise (eps : ℚ) :
    ∀ (l seen : List (ℚ × ℚ)),
      (filterCloseAux eps seen l).Pairwise
        (fun p q => normLt2 p q eps = false) := by
  intro l
  induction l with
  | nil => intro seen; simp [filterCloseAux]
  | cons p rest ih =>
    intro seen
    rw [filterCloseAux]
    split_ifs with hAny
    · exact ih (seen ++ [p])
    · refine List.pairwise_cons.mpr ⟨?_, ih (seen ++ [p])⟩
      intro q hq
      exact filterCloseAux_far eps rest (seen ++ [p]) q hq p
        (List.mem_append_right _ (List.mem_singleton.mpr rfl))

/-- The closeness filter returns a subset of its input. -/
theorem filterCloseAux_subset (eps : ℚ) :
    ∀ (l seen : List (ℚ × ℚ)), ∀ q ∈ filterCloseAux eps seen l, q ∈ l := by
  intro l
  induction l with
  | nil => intro seen q hq; simp [filterCloseAux] at hq
  | cons p rest ih =>
    intro seen q hq
    rw [filterCloseAux] at hq
    split_ifs at hq with hAny
    · exact List.mem_cons_of_mem _ (ih (seen ++ [p]) q hq)
    · rcases List.mem_cons.mp hq with rfl | hq'
      · exact List.mem_cons_self _ _
      · exact List.mem_cons_of_mem _ (ih (seen ++ [p]) q hq')

/-- Counterexample to claim C4 as stated: for `max_step ≠ 0` the
continuation output is only cropped, not deduplicated.  A continuation
solution curve containing the in-domain point `(0,0)` twice is returned
unchanged over the domain `[-1,1]²`, and the two returned points are at
distance `0 < 10·xtol` for `xtol = 1`. -/
theorem find_nullclines_refined_close_counterexample :
    nullclineRefined [(0, 0), (0, 0)] (-1) 1 (-1) 1 = [(0, 0), (0, 0)] ∧
    norm2R (0, 0) (0, 0) < (((1 : ℚ) * 10 : ℚ) : ℝ) := by
  constructor
  · norm_num [nullclineRefined, crop_2D, inRect, expandLo, expandHi,
      List.filter]
  · norm_num [norm2R, dist2]

/-- Claim C4 amended: every point of the `max_step = 0` output lies in the
2%-expanded domain rectangle, and no two of its points are closer than
`10·xtol` in the 2-norm; every point of the `max_step ≠ 0`
(continuation-refined) output lies in the 2%-expanded rectangle, but that
output is not re-filtered for closeness. -/
theorem find_nullclines_crop_filter (pts sol : List (ℚ × ℚ))
    (x0 x1 y0 y1 xtol : ℚ) :
    (∀ p ∈ nullclineRaw pts x0 x1 y0 y1 xtol,
      inRect (expandLo x0 x1) (expandHi x0 x1)
        (expandLo y0 y1) (expandHi y0 y1) p = true) ∧
    (nullclineRaw pts x0 x1 y0 y1 xtol).Pairwise
      (fun p q => ((xtol * 10 : ℚ) : ℝ) ≤ norm2R p q) ∧
    (∀ p ∈ nullclineRefined sol x0 x1 y0 y1,
      inRect (expandLo x0 x1) (expandHi x0 x1)
        (expandLo y0 y1) (expandHi y0 y1) p = true) := by
  refine ⟨?_, ?_, ?_⟩
  · intro p hp
    have hmem : p ∈ crop_2D pts (expandLo x0 x1) (expandHi x0 x1)
        (expandLo y0 y1) (expandHi y0 y1) :=
      filterCloseAux_subset _ _ [] p hp
    exact (List.mem_filter.mp hmem).2
  · exact (filterCloseAux_pairwise (xtol * 10) _ []).imp
      (fun h => normLt2_false_le _ _ _ h)
  · intro p hp
    exact (List.mem_filter.mp hp).2

/-- Witness for C4's amended theorem on the concrete input
`pts = sol = [(0,0)]` over the domain `[0,1]²` with `xtol = 1`. -/
theorem find_nullclines_crop_filter_witness :
    inRect (expandLo 0 1) (expandHi 0 1) (expandLo 0 1) (expandHi 0 1)
      (0, 0) = true ∧
    (nullclineRaw [(0, 0)] 0 1 0 1 1).Pairwise
      (fun p q => (((1 : ℚ) * 10 : ℚ) : ℝ) ≤ norm2R p q) := by
  have hmem : (0, 0) ∈ nullclineRaw [(0, 0)] 0 1 0 1 1 := by
    norm_num [nullclineRaw, filter_close_points, filterCloseAux, crop_2D,
      inRect, expandLo, expandHi, List.filter]
  exact ⟨(find_nullclines_crop_filter [(0, 0)] [(0, 0)] 0 1 0 1 1).1
      (0, 0) hmem,
    (find_nullclines_crop_filter [(0, 0)] [(0, 0)] 0 1 0 1 1).2.1⟩

/-- Claim C10: a `dx_scaled_2D` instance with equal unit axis scales acts
on every 2-component direction vector as plain scalar multiplication by
`dx`, independent of the direction's angle. -/
theorem dx_scaled_2D_unit_scale (dx : ℝ) (dir : ℝ × ℝ) :
    (dxScaledMk dx (1, 1)).map (fun s => dxScaledCall s dir) =
      some (dx * dir.1, dx * dir.2) := by
  unfold dxScaledMk
  rw [if_pos (by norm_num : (0:ℝ) < (1:ℝ) ∧ (0:ℝ) < (1:ℝ))]
  simp only [Option.map_some', dxScaledCall, max_self]
  norm_num

/-- Counterexample to claim C2 as stated: the subsequent-point correction
of `find_saddle_manifolds` shrinks `dx_perp` by the literal factor `0.75`,
not by the configured `dx_perp_fac`.  Against an attempt oracle that
succeeds once the perturbation is `≤ 1/2`, the source's growth step lands
on the corrected point at perturbation `27/64 = 1·0.75³`, while the
spec-modelled step with configured factor `1/2` lands at `1/2` — an
observable divergence for `dx_perp_fac = 1/2`. -/
theorem find_saddle_manifolds_factor_counterexample :
    growLoop cfgContrived 1 0 1 (0, 0) [] = [(1, (27/64, 0))] ∧
    growLoopSpecFactor (1/2) cfgContrived 1 0 1 (0, 0) [] =
      [(1, (1/2, 0))] ∧
    (27/64 : ℚ) ≠ (1/2 : ℚ) := by
  refine ⟨?_, ?_, by norm_num⟩
  · norm_num [growLoop, retryLoop, cfgContrived, attContrived, dxPerpEps]
  · norm_num [growLoopSpecFactor, retryLoop, cfgContrived, attContrived,
      dxPerpEps]

/-- Claim C2 amended: (i) when a correction attempt for the very first
point of a direction fails, `dx_perp` is shrunk by the configured factor
`dx_perp_fac` and the correction retried, whereas (iv) a subsequent
point's correction retries with the literal factor `3/4 = 0.75`;
(ii) once `dx_perp` is at or below the hard floor `1e-12` the retry loop
reports the floor; (iii) reaching the floor on the very first point fails
the whole trace with the initial-convergence error; (v) reaching the
floor on a subsequent point silently ends that direction's growth and the
partial piece computed so far is kept (and later sorted into the returned
manifold). -/
theorem find_saddle_manifolds_retry_floor (cfg : GrowCfg)
    (attInit : ℚ → Option Pt) (fac dxp : ℚ) (k : ℕ) (ic : Pt)
    (len0 : ℚ) :
    (dxPerpEps < dxp → attInit dxp = none →
      retryLoop attInit fac (k+1) dxp = retryLoop attInit fac k (dxp * fac)) ∧
    (¬ dxPerpEps < dxp → retryLoop attInit fac (k+1) dxp = .floorReached) ∧
    (retryLoop attInit fac cfg.retryFuel dxp = .floorReached →
      traceDirection cfg attInit fac dxp ic len0 =
        .error "Initial point did not converge") ∧
    (∀ (fuel : ℕ) (curveLen : ℚ) (numPts : ℕ) (lastX : Pt)
        (piece : List (ℚ × Pt)) (x : Pt),
      curveLen < cfg.maxLen → numPts < cfg.maxPts →
      cfg.nearOther lastX = false →
      retryLoop (cfg.att lastX) (3/4) cfg.retryFuel cfg.dxPerpDefault =
        .success x →
      growLoop cfg (fuel+1) curveLen numPts lastX piece =
        growLoop cfg fuel (curveLen + cfg.dist x lastX) (numPts+1) x
          (piece ++ [(cfg.sgn * (curveLen + cfg.dist x lastX), x)])) ∧
    (∀ (fuel : ℕ) (curveLen : ℚ) (numPts : ℕ) (lastX : Pt)
        (piece : List (ℚ × Pt)),
      curveLen < cfg.maxLen → numPts < cfg.maxPts →
      cfg.nearOther lastX = false →
      retryLoop (cfg.att lastX) (3/4) cfg.retryFuel cfg.dxPerpDefault =
        .floorReached →
      growLoop cfg (fuel+1) curveLen numPts lastX piece = piece) := by
  refine ⟨?_, ?_, ?_, ?_, ?_⟩
  · intro h h2
    simp [retryLoop, h, h2]
  · intro h
    simp [retryLoop, h]
  · intro h
    simp [traceDirection, h]
  · intro fuel curveLen numPts lastX piece x hlen hpts hnear hretry
    simp [growLoop, hlen, hpts, hnear, hretry]
  · intro fuel curveLen numPts lastX piece hlen hpts hnear hretry
    simp [growLoop, hlen, hpts, hnear, hretry]

/-- Witness for C2's amended theorem, instantiating each part at concrete
inputs: a failing first attempt at `dx_perp = 1` with factor `1/2`; the
floor report at `dx_perp = 10⁻¹³ < 10⁻¹²`; the initial-convergence error
of a trace whose attempts always fail from below the floor; one source
growth step retrying with `3/4` down to `27/64`; and a below-floor growth
step that keeps the already-computed partial piece. -/
theorem find_saddle_manifolds_retry_floor_witness :
    retryLoop attContrived (1/2) 4 1 =
      retryLoop attContrived (1/2) 3 (1 * (1/2)) ∧
    retryLoop attContrived (1/2) 4 (1/10^13) = .floorReached ∧
    traceDirection cfgContrived (fun _ => none) (1/2) (1/10^13) (0, 0) 0 =
      .error "Initial point did not converge" ∧
    growLoop cfgContrived (0+1) 0 1 (0, 0) [] =
      growLoop cfgContrived 0 (0 + cfgContrived.dist (27/64, 0) (0, 0)) 2
        (27/64, 0)
        ([] ++ [(cfgContrived.sgn *
          (0 + cfgContrived.dist (27/64, 0) (0, 0)), (27/64, 0))]) ∧
    growLoop cfgFloor (0+1) 0 1 (0, 0) [(1, (5, 5))] = [(1, (5, 5))] := by
  refine ⟨?_, ?_, ?_, ?_, ?_⟩
  · exact (find_saddle_manifolds_retry_floor cfgContrived attContrived
      (1/2) 1 3 (0, 0) 0).1
      (by norm_num [dxPerpEps]) (by norm_num [attContrived])
  · exact (find_saddle_manifolds_retry_floor cfgContrived attContrived
      (1/2) (1/10^13) 3 (0, 0) 0).2.1 (by norm_num [dxPerpEps])
  · exact (find_saddle_manifolds_retry_floor cfgContrived (fun _ => none)
      (1/2) (1/10^13) 3 (0, 0) 0).2.2.1
      (by norm_num [retryLoop, cfgContrived, dxPerpEps])
  · exact (find_saddle_manifolds_retry_floor cfgContrived (fun _ => none)
      (1/2) (1/10^13) 3 (0, 0) 0).2.2.2.1 0 0 1 (0, 0) [] (27/64, 0)
      (by norm_num [cfgContrived]) (by norm_num [cfgContrived])
      (by norm_num [cfgContrived])
      (by norm_num [retryLoop, cfgContrived, attContrived, dxPerpEps])
  · exact (find_saddle_manifolds_retry_floor cfgFloor (fun _ => none)
      (1/2) (1/10^13) 3 (0, 0) 0).2.2.2.2 0 0 1 (0, 0) [(1, (5, 5))]
      (by norm_num [cfgFloor]) (by norm_num [cfgFloor])
      (by norm_num [cfgFloor])
      (by norm_num [retryLoop, cfgFloor, dxPerpEps])

/-- A successful branch iteration means every branch computation ran
successfully against the given handle state. -/
theorem runBranches_ok (st : GenState) :
    ∀ (l : List (GenState → Except String (List (ℚ × Pt))))
      (ms : List (List (ℚ × Pt))),
      runBranches st l = .ok ms →
      ∀ br ∈ l, ∃ piece, br st = .ok piece := by
  intro l
  induction l with
  | nil => intro ms _ br hbr; simp at hbr
  | cons b rest ih =>
    intro ms hok br hbr
    rw [runBranches] at hok
    cases hb : b st with
    | error e => rw [hb] at hok; simp at hok
    | ok piece =>
      rw [hb] at hok
      cases hrest : runBranches st rest with
      | error e => rw [hrest] at hok; simp at hok
      | ok ms' =>
        rcases List.mem_cons.mp hbr with rfl | hbr'
        · exact ⟨piece, hb⟩
        · exact ih ms' hrest br hbr'

/-- Claim C9: whenever `find_saddle_manifolds` returns normally, the two
exit-surface activation flags of the returned handle state are `false`,
and every branch growth ran against the state in which both flags were
`true` — the flags are active only during the manifold growth and are
restored before the function returns. -/
theorem find_saddle_manifolds_flags (st : GenState)
    (branches : List (GenState → Except String (List (ℚ × Pt))))
    (st' : GenState) (ms : List (List (ℚ × Pt)))
    (h : findSaddleManifolds st branches = .ok (st', ms)) :
    st'.gammaOutPlusActive = false ∧ st'.gammaOutMinusActive = false ∧
    ∀ br ∈ branches, ∃ piece, br ⟨true, true⟩ = .ok piece := by
  unfold findSaddleManifolds at h
  cases hrun : runBranches ⟨true, true⟩ branches with
  | error e => rw [hrun] at h; simp at h
  | ok ms' =>
    rw [hrun] at h
    simp only [Except.ok.injEq, Prod.mk.injEq] at h
    obtain ⟨hst, hms⟩ := h
    refine ⟨?_, ?_, runBranches_ok _ _ _ hrun⟩
    · rw [← hst]
    · rw [← hst]

/-- Witness for C9: a single branch that immediately returns an empty
piece; the call returns normally with both flags `false`. -/
theorem find_saddle_manifolds_flags_witness :
    (⟨false, false⟩ : GenState).gammaOutPlusActive = false ∧
    (⟨false, false⟩ : GenState).gammaOutMinusActive = false ∧
    ∀ br ∈ [fun (_ : GenState) =>
        (.ok [] : Except String (List (ℚ × Pt)))],
      ∃ piece, br ⟨true, true⟩ = .ok piece :=
  find_saddle_manifolds_flags ⟨false, false⟩
    [fun _ => .ok []] ⟨false, false⟩ [[]] rfl

end PhasePlane
